import Mathlib

/-!
Verification development for the ECA (Enhanced/Easier CSS Animations)
visibility-and-timing decision engine (src/eca.js).

The JavaScript data model and operations are shallowly embedded:

* JS numbers are modelled as rationals, JS booleans as `Bool`;
* the mutable `Elem` and `ElemGroup` objects are records, mutation is
  explicit state passing (an element of a group is addressed by its index
  in the group's `elems` array);
* DOM geometry reads (`getBoundingClientRect`) are inputs;
* `setTimeout` / `requestAnimationFrame` scheduling is represented by
  returning the scheduled continuation's effect as data.
-/

/-- A JavaScript runtime value, as far as the setters care: the
`isVisible` / `isAnimated` setters store `!!v` but compare the raw
assigned value `v` against the stored boolean with strict equality. -/
inductive JSVal where
  | bool (b : Bool)
  | num (q : ℚ)
  | str (s : String)
  | null
  | undef
deriving Repr, DecidableEq

/-- JS truthiness of a value (`NaN` is not modelled; `eca` only ever
assigns booleans and numbers produced by its own arithmetic here). -/
def JSVal.truthy : JSVal → Bool
  | .bool b => b
  | .num q => decide (q ≠ 0)
  | .str s => decide (s ≠ "")
  | .null => false
  | .undef => false

/-- Strict equality (`===`) of a raw JS value against a stored boolean. -/
def JSVal.strictEqBool : JSVal → Bool → Bool
  | .bool c, b => c == b
  | _, _ => false

/-- The `data-eca-remove-animation-when-not-in-view` option:
`false`, `true`, the string `"above"` or the string `"below"`
(src/eca.js lines 852-857). -/
inductive RemoveMode where
  | off
  | both
  | above
  | below
deriving Repr, DecidableEq

/-- JS truthiness of the stored option value. -/
def RemoveMode.truthyB : RemoveMode → Bool
  | .off => false
  | _ => true

/-- One trackable element (class `eca.animatable.Elem`).  `top` and
`bottom` are viewport-relative coordinates, `delayStyle` is the
`animation-delay`/`transition-delay` inline style written by `animate`
(in ms; `none` = no such inline style, i.e. the CSS-declared delay is
left untouched), `hasAnimatedClass` mirrors membership of the
`eca-animated` class. -/
structure Elem where
  top : ℚ
  bottom : ℚ
  threshold : ℚ
  originalThreshold : ℚ
  uniqueDelay : Option ℚ
  isVisible : Bool
  isAnimated : Bool
  delayStyle : Option ℚ
  hasAnimatedClass : Bool
deriving Repr, DecidableEq

/-- One animation group (class `eca.animatable.ElemGroup`).  The
`delayId` handle and the global `groupDelayIds` registry are not
modelled; a scheduled timer is instead returned as data by the
operations that create it. -/
structure ElemGroup where
  elems : List Elem
  groupId : String
  delayMultiplier : ℚ
  staggersFromZero : Bool
  nextStaggeredDelay : Option ℚ
  groupDelay : ℚ
  originalGroupDelay : ℚ
  isDelaying : Bool
  isFinishedAnimating : Bool
  numElemsAnimated : Int
  playsOnLoad : Bool
  playsReversed : Bool
  animatesAllOnFirstSight : Bool
  upToDateIdx : Nat
  listen : Option String
  animatesWithTransitions : Bool
  removesAnimationWhenNotInView : RemoveMode
  isVisible : Bool
  numElemsVisible : Int
deriving Repr, DecidableEq

/-- `ElemGroup.updateVisibility` (src/eca.js lines 868-873). -/
def ElemGroup.updateVisibility (g : ElemGroup) (elemIsVisible : Bool) : ElemGroup :=
  let n := g.numElemsVisible + (if elemIsVisible then 1 else -1)
  { g with numElemsVisible := n, isVisible := decide (n > 0) }

/-- `ElemGroup.updateAnimationStatus` (src/eca.js lines 875-880). -/
def ElemGroup.updateAnimationStatus (g : ElemGroup) (elemIsAnimated : Bool) : ElemGroup :=
  let n := g.numElemsAnimated + (if elemIsAnimated then 1 else -1)
  { g with numElemsAnimated := n,
           isFinishedAnimating := decide (n = (g.elems.length : Int)) }

/-- The `set isVisible` accessor (src/eca.js lines 669-681) on the
member at index `i`, taking the raw assigned JS value: the stored flag
becomes `!!v`, and the group aggregate is updated exactly when the raw
value is not strictly equal to the previously stored boolean. -/
def setIsVisibleRaw (g : ElemGroup) (i : Nat) (v : JSVal) : ElemGroup :=
  match g.elems[i]? with
  | none => g
  | some e =>
    let g1 := { g with elems := g.elems.set i { e with isVisible := v.truthy } }
    if v.strictEqBool e.isVisible then g1 else g1.updateVisibility v.truthy

/-- The `set isAnimated` accessor (src/eca.js lines 688-698) on the
member at index `i`, taking the raw assigned JS value. -/
def setIsAnimatedRaw (g : ElemGroup) (i : Nat) (v : JSVal) : ElemGroup :=
  match g.elems[i]? with
  | none => g
  | some e =>
    let g1 := { g with elems := g.elems.set i { e with isAnimated := v.truthy } }
    if v.strictEqBool e.isAnimated then g1 else g1.updateAnimationStatus v.truthy

/-- The setter applied with a genuine boolean, as the library itself
always does (`elem.isVisible = <comparison result>`). -/
def setIsVisible (g : ElemGroup) (i : Nat) (b : Bool) : ElemGroup :=
  setIsVisibleRaw g i (.bool b)

/-- The setter applied with a genuine boolean
(`elem.isAnimated = true` in `animate`, `= false` in `deAnimate`). -/
def setIsAnimated (g : ElemGroup) (i : Nat) (b : Bool) : ElemGroup :=
  setIsAnimatedRaw g i (.bool b)

/-- JS truthiness of a number-or-null field such as
`group.nextStaggeredDelay`. -/
def truthyOpt (o : Option ℚ) : Bool :=
  match o with
  | none => false
  | some q => decide (q ≠ 0)

/-- The `get delay` accessor of `Elem` (src/eca.js lines 644-662):
unique per-element delay first (`uniqueDelay || uniqueDelay === 0`),
then the group's pending staggered delay, then the seed value from the
multiplier, else `null`. -/
def elemDelay (g : ElemGroup) (e : Elem) : Option ℚ :=
  match e.uniqueDelay with
  | some u => some u
  | none =>
    if truthyOpt g.nextStaggeredDelay then g.nextStaggeredDelay
    else if g.nextStaggeredDelay = none ∧ g.delayMultiplier ≠ 0 then
      some (if g.staggersFromZero then 0 else g.delayMultiplier)
    else none

/-- `ElemGroup.updateNextStaggeredDelay` (src/eca.js lines 887-897). -/
def ElemGroup.updateNextStaggeredDelay (g : ElemGroup) : ElemGroup :=
  if truthyOpt g.nextStaggeredDelay then
    { g with nextStaggeredDelay := some (g.nextStaggeredDelay.getD 0 + g.delayMultiplier) }
  else if g.nextStaggeredDelay = none ∧ g.delayMultiplier ≠ 0 then
    let seed : ℚ := if g.staggersFromZero then g.delayMultiplier else 2 * g.delayMultiplier
    { g with nextStaggeredDelay := some seed }
  else g

/-- A fallback member used only to give `upToDateElem` a total type;
the source guarantees `upToDateELem` references a real member. -/
def dummyElem : Elem :=
  { top := 0, bottom := 0, threshold := 0, originalThreshold := 0,
    uniqueDelay := none, isVisible := false, isAnimated := false,
    delayStyle := none, hasAnimatedClass := false }

/-- `group.upToDateELem` (src/eca.js line 841), addressed by index. -/
def ElemGroup.upToDateElem (g : ElemGroup) : Elem :=
  g.elems.getD g.upToDateIdx dummyElem

/-- The `get isReadyToAnimate` accessor (src/eca.js lines 621-631). -/
def isReadyToAnimate (g : ElemGroup) (e : Elem) : Bool :=
  if e.isAnimated || g.isDelaying then false
  else e.isVisible || g.playsOnLoad || (g.animatesAllOnFirstSight && g.isVisible)

/-- The `get isReadyToDeanimate` accessor (src/eca.js lines 585-619);
`wh` is `eca.state.windowHeight`. -/
def isReadyToDeanimate (wh : ℚ) (g : ElemGroup) (e : Elem) : Bool :=
  if !g.removesAnimationWhenNotInView.truthyB || g.playsOnLoad || !e.isAnimated then
    false
  else
    match g.removesAnimationWhenNotInView with
    | .off => false
    | .both =>
      if g.animatesAllOnFirstSight then !g.isVisible else !e.isVisible
    | .below =>
      if g.animatesAllOnFirstSight then
        !g.isVisible && decide (g.upToDateElem.bottom > wh)
      else
        !e.isVisible && decide (e.bottom > wh)
    | .above =>
      if g.animatesAllOnFirstSight then
        !g.isVisible && decide (g.upToDateElem.top < 0)
      else
        !e.isVisible && decide (e.top < 0)

/-- Replace the member at index `i` by `f` applied to it (plain field
mutation on an `Elem`, bypassing the accessor side effects). -/
def mapElemAt (g : ElemGroup) (i : Nat) (f : Elem → Elem) : ElemGroup :=
  match g.elems[i]? with
  | none => g
  | some e => { g with elems := g.elems.set i (f e) }

/-- `eca.animatable.animate` (src/eca.js lines 1687-1724) on the member
at index `i`: write the computed delay (when not `null`) into the
appropriate delay style, advance the group's staggered delay unless the
member has a truthy unique delay, add the `eca-animated` class, and set
`isAnimated` to `true` through the accessor. -/
def animate (g : ElemGroup) (i : Nat) : ElemGroup :=
  match g.elems[i]? with
  | none => g
  | some e =>
    let d := elemDelay g e
    let g1 := if d ≠ none then mapElemAt g i (fun x => { x with delayStyle := d }) else g
    let g2 := if !truthyOpt e.uniqueDelay then g1.updateNextStaggeredDelay else g1
    let g3 := mapElemAt g2 i (fun x => { x with hasAnimatedClass := true })
    setIsAnimated g3 i true

/-- `eca.animatable.deAnimate` (src/eca.js lines 1733-1738) on the
member at index `i`: remove the class, clear `isAnimated` through the
accessor, and restore the originally captured inline styles (modelled
as clearing the delay style `animate` wrote). -/
def deAnimate (g : ElemGroup) (i : Nat) : ElemGroup :=
  match g.elems[i]? with
  | none => g
  | some _ =>
    let g1 := mapElemAt g i (fun x => { x with hasAnimatedClass := false })
    let g2 := setIsAnimated g1 i false
    mapElemAt g2 i (fun x => { x with delayStyle := none })

/-- `eca.animatable.updateAnimations` (src/eca.js lines 1663-1678) on
the member at index `i`. -/
def updateAnimations (wh : ℚ) (g : ElemGroup) (i : Nat) : ElemGroup :=
  match g.elems[i]? with
  | none => g
  | some e =>
    if isReadyToAnimate g e then animate g i
    else if isReadyToDeanimate wh g e then deAnimate g i
    else g

/-- The per-member pass `elems.forEach(updateAnimations)` of
`updateOne` (src/eca.js line 1589). -/
def memberPass (wh : ℚ) (g : ElemGroup) : ElemGroup :=
  (List.range g.elems.length).foldl (fun h i => updateAnimations wh h i) g

/-- `eca.animatable.updateMutableProps` (src/eca.js lines 1638-1654). -/
def updateMutableProps (g : ElemGroup) : ElemGroup :=
  let g1 := { g with nextStaggeredDelay := none }
  if g1.numElemsAnimated = 0 then
    { g1 with groupDelay := if g1.groupDelay ≠ 0 then g1.groupDelay else g1.originalGroupDelay }
  else g1

/-- The synchronous state change performed by `eca.animatable.delayGroup`
(src/eca.js lines 1603-1630) before its `setTimeout` fires: the group is
marked delaying and the configured delay is saved.  The scheduled
one-shot timer is represented by the `deferred` result of `updateOne`,
which carries the timer's duration. -/
def delayGroupMark (g : ElemGroup) : ElemGroup :=
  { g with isDelaying := true, originalGroupDelay := g.groupDelay }

/-- Result of `eca.animatable.updateOne`: either the per-member pass ran,
or it was deferred behind a group-delay timer of the given duration. -/
inductive UpdateResult where
  | ran (g : ElemGroup)
  | deferred (g : ElemGroup) (timerDelay : ℚ)
deriving Repr, DecidableEq

/-- The group state carried by an `UpdateResult`. -/
def UpdateResult.group : UpdateResult → ElemGroup
  | .ran g => g
  | .deferred g _ => g

/-- `eca.animatable.updateOne` (src/eca.js lines 1569-1592). -/
def updateOne (wh : ℚ) (g : ElemGroup) : UpdateResult :=
  if 0 < g.groupDelay ∧ g.isVisible then .deferred (delayGroupMark g) g.groupDelay
  else .ran (updateMutableProps (memberPass wh g))

/-- The boolean visibility expression of the polling-strategy
`eca.animatable.calculateVisibility` (src/eca.js lines 1261-1308):
`pixelThreshold` is the fractional threshold times the element's own
height, minus one pixel when the threshold is exactly 1, and is zeroed
when the element is already visible and the group uses CSS animations
rather than transitions. -/
def visibilityExpr (wh top bottom height threshold : ℚ)
    (wasVisible transitions : Bool) : Bool :=
  let pixelThreshold := height * threshold - (if threshold = 1 then 1 else 0)
  let pixelThreshold := if wasVisible && !transitions then 0 else pixelThreshold
  decide (top + pixelThreshold < wh) && decide (bottom - pixelThreshold > 0)

/-- `eca.animatable.calculateVisibility` applied to the member at index
`i`: record the freshly read `top`/`bottom` and write the visibility
flag through the side-effecting setter.  `geom` is the element's
`getBoundingClientRect` result as `(top, bottom, height)`. -/
def calculateVisibility (wh : ℚ) (geom : ℚ × ℚ × ℚ) (g : ElemGroup) (i : Nat) : ElemGroup :=
  match g.elems[i]? with
  | none => g
  | some e =>
    let g1 := { g with elems := g.elems.set i { e with top := geom.1, bottom := geom.2.1 } }
    setIsVisible g1 i
      (visibilityExpr wh geom.1 geom.2.1 geom.2.2 e.threshold e.isVisible
        g.animatesWithTransitions)

/-- `eca.animatable.readOne` (src/eca.js lines 1521-1524):
`elems.forEach(calculateVisibility)`, with `geoms i` the bounding
rectangle read for the member at index `i`. -/
def readOne (wh : ℚ) (geoms : Nat → ℚ × ℚ × ℚ) (g : ElemGroup) : ElemGroup :=
  (List.range g.elems.length).foldl (fun h i => calculateVisibility wh (geoms i) h i) g

/-- The callback of the `setTimeout` created by `delayGroup`
(src/eca.js lines 1608-1625): zero the group delay, clear the delaying
flag, re-read member visibility when using the polling strategy, and
schedule `updateOne` at the next animation-frame boundary (the scheduled
pass is returned as the second component). -/
def groupDelayTimerCb (useScroll : Bool) (wh : ℚ) (geoms : Nat → ℚ × ℚ × ℚ)
    (g : ElemGroup) : ElemGroup × UpdateResult :=
  let g1 := { g with groupDelay := 0, isDelaying := false }
  let g2 := if useScroll then readOne wh geoms g1 else g1
  (g2, updateOne wh g2)

/-- The per-group guard of `eca.animatable.updateAll`
(src/eca.js lines 1541-1561): a group is processed only when it
removes-on-exit or is not finished, and is not currently delaying. -/
def updateAllOne (wh : ℚ) (g : ElemGroup) : ElemGroup :=
  if (g.removesAnimationWhenNotInView.truthyB || !g.isFinishedAnimating)
      && !g.isDelaying then
    (updateOne wh g).group
  else g

/-- `n` consecutive update cycles over one group. -/
def iterCycles (wh : ℚ) : Nat → ElemGroup → ElemGroup
  | 0, g => g
  | n + 1, g => iterCycles wh n (updateAllOne wh g)

/-- The fixed threshold table `nextSmallestThreshold` of
`eca.animatable.correctThreshold` (src/eca.js line 1369), also the set
of thresholds `convertThreshold` can produce. -/
def nextSmallestThreshold : List ℚ := [0, 1/4, 1/2, 3/4, 1]

/-- The `while (winPercentOfEl < nextSmallestThreshold[i]) i--` loop of
`correctThreshold`, started at index `i`. -/
def thresholdWhileIdx (w : ℚ) : Nat → Nat
  | 0 => 0
  | i + 1 =>
    if w < nextSmallestThreshold.getD (i + 1) 0 then thresholdWhileIdx w i
    else i + 1

/-- `eca.animatable.correctThreshold` (src/eca.js lines 1341-1384) as a
function of the cached window height, the element's measured height and
its saved original threshold, returning the new effective threshold.
When the original threshold is 0 the source returns early without
touching `elem.threshold`; since the threshold starts equal to
`originalThreshold` and is only ever written by this function, the
effective threshold is `originalThreshold` in that case. -/
def correctThreshold (wh elemHeight originalThreshold : ℚ) : ℚ :=
  if originalThreshold = 0 then originalThreshold
  else if elemHeight > wh then
    let winPercentOfEl := wh / elemHeight
    let t := nextSmallestThreshold.getD (thresholdWhileIdx winPercentOfEl 4) 0
    if t ≤ originalThreshold then t else originalThreshold
  else originalThreshold

/-- Scheduler state for `eca.animatable.requestAnimationUpdate`
(src/eca.js lines 1456-1484) over an abstract world `W` read and
written by the callbacks: `updating` is `eca.state.updating`, and
`pending` is the update callback handed to `requestAnimationFrame`,
still waiting for the frame boundary. -/
structure Sched (W : Type) where
  world : W
  updating : Bool
  pending : Option (W → W)

/-- `eca.animatable.requestAnimationUpdate`: when no cycle is in flight,
run the read callback synchronously and queue the update callback for
the next frame; otherwise do nothing at all. -/
def requestAnimationUpdate {W : Type} (readCb updateCb : W → W) (s : Sched W) : Sched W :=
  if s.updating then s
  else { world := readCb s.world, updating := true, pending := some updateCb }

/-- The animation-frame boundary: run the queued update callback (which
then clears `eca.state.updating`). -/
def frameBoundary {W : Type} (s : Sched W) : Sched W :=
  match s.pending with
  | some cb => { world := cb s.world, updating := false, pending := none }
  | none => s

/-- Decimal digits of `n`, with explicit fuel (`fuel > n` suffices);
this is JS `String(i)` for the natural `i` used as the group-id
disambiguation suffix. -/
def natCharsGo (fuel n : Nat) : List Char :=
  match fuel with
  | 0 => []
  | fuel + 1 =>
    if n < 10 then [Char.ofNat (48 + n)]
    else natCharsGo fuel (n / 10) ++ [Char.ofNat (48 + n % 10)]

/-- JS `String(n)` for a natural number. -/
def natChars (n : Nat) : List Char := natCharsGo (n + 1) n

/-- Decimal value of a digit string (left inverse of `natChars`). -/
def charsVal (cs : List Char) : Nat :=
  cs.foldl (fun a c => 10 * a + (c.toNat - 48)) 0

/-- The base group id of one first-element: its leading class name,
plus `-letters` for text groups (src/eca.js lines 949-964). -/
def baseId (className : List Char) (isText : Bool) : List Char :=
  className ++ (if isText then "-letters".data else [])

/-- The group-id assignment loop of
`eca.animatable.readyElementsForAnimation` (src/eca.js lines 945-981):
`i` is the loop index, `used` the key set of `groupsOfAnimatableElems`
(the ids assigned so far); a base id that is already a key receives the
loop index as suffix. -/
def assignIdsGo (i : Nat) (used : List (List Char)) : List (List Char) → List (List Char)
  | [] => []
  | b :: rest =>
    let id := if b ∈ used then b ++ natChars i else b
    id :: assignIdsGo (i + 1) (id :: used) rest

/-- The ids assigned to a list of base ids, in document order. -/
def assignIds (bases : List (List Char)) : List (List Char) :=
  assignIdsGo 0 [] bases

/-- The ids `readyElementsForAnimation` assigns, starting from each
first-element's leading class name and text flag. -/
def readyElementsGroupIds (firsts : List (List Char × Bool)) : List (List Char) :=
  assignIds (firsts.map (fun p => baseId p.1 p.2))

/-- Whether a JSON object (modelled as an association list of its own
enumerable properties, in insertion order) has the given key
(`hasOwnProperty`). -/
def hasKey (styles : List (String × String)) (k : String) : Bool :=
  styles.any (fun kv => kv.1 == k)

/-- `eca.animatable.getEventStyles` (src/eca.js lines 1094-1120).  The
source initialises `event` to the empty string and then tests
`listenerStyles.hasOwnProperty(event)` and `event === "run"` in the
`else` branches — `event` is still `""` there, which is embedded
faithfully below. -/
def getEventStyles (listenerStyles : List (String × String))
    (animatesWithTransitions : Bool) : List (String × String) :=
  listenerStyles.foldl
    (fun stylesToChange kv =>
      if kv.1 ≠ "run" ∧ kv.1 ≠ "iteration" then
        stylesToChange ++
          [((if animatesWithTransitions then "transition" ++ kv.1 else "animation" ++ kv.1),
            kv.2)]
      else if hasKey listenerStyles "" ∧ ("" : String) = "run" then
        stylesToChange ++ [("transitionrun", kv.2)]
      else if hasKey listenerStyles "" then
        stylesToChange ++ [("animationiteration", kv.2)]
      else stylesToChange)
    []

/-- Outcome of `JSON.parse` on the raw `data-eca-listen` string; the
parser itself is platform code, so it is a parameter of `addListeners`. -/
inductive ParseOutcome where
  | ok (styles : List (String × String))
  | error (msg : String)
deriving Repr, DecidableEq

/-- The observable effect of `eca.animatable.addListeners`: which
events got listeners (with the style each applies), what was written to
the diagnostic channel (`console.error`), and whether an exception
escaped. -/
structure ListenersEffect where
  attachedEvents : List (String × String)
  diagnostics : List String
  threw : Bool
deriving Repr, DecidableEq

/-- `eca.animatable.addListeners` (src/eca.js lines 1039-1078): parse
the raw listener spec inside `try`; on success attach a listener per
translated event, on failure report the error and a message naming the
group id, and in both cases return normally with the group untouched. -/
def addListeners (parse : String → ParseOutcome) (g : ElemGroup) :
    ElemGroup × ListenersEffect :=
  match g.listen with
  | none => (g, ⟨[], [], false⟩)
  | some s =>
    match parse s with
    | .ok styles =>
      (g, ⟨getEventStyles styles g.animatesWithTransitions, [], false⟩)
    | .error e =>
      (g, ⟨[],
           [e, "Please make sure the data-eca-listen object on " ++ g.groupId ++
               " is properly formatted JSON."],
           false⟩)

/-- One step through the operations named by the aggregate-consistency
claim: an assignment through the `isAnimated` setter with a genuine
boolean, an `animate` call, or a `deAnimate` call, each on an
arbitrary member index. -/
inductive AnimStep : ElemGroup → ElemGroup → Prop where
  | set (g : ElemGroup) (i : Nat) (b : Bool) : AnimStep g (setIsAnimated g i b)
  | animateOp (g : ElemGroup) (i : Nat) : AnimStep g (animate g i)
  | deAnimateOp (g : ElemGroup) (i : Nat) : AnimStep g (deAnimate g i)

/-- States reachable from `g0` through `AnimStep`s. -/
inductive ReachableAnim (g0 : ElemGroup) : ElemGroup → Prop where
  | refl : ReachableAnim g0 g0
  | step {g h : ElemGroup} : ReachableAnim g0 g → AnimStep g h → ReachableAnim g0 h

/-- The aggregate-consistency property of a group state: the animated
counter equals the number of members whose flag is set, and the
finished flag holds exactly when the counter equals the member count. -/
def GroupInv (g : ElemGroup) : Prop :=
  g.numElemsAnimated = (g.elems.countP (fun e => e.isAnimated) : Int) ∧
    (g.isFinishedAnimating ↔ g.numElemsAnimated = (g.elems.length : Int))

instance (g : ElemGroup) : Decidable (GroupInv g) := by
  unfold GroupInv; infer_instance

/-- A group exactly as the `ElemGroup` constructor leaves it
(src/eca.js lines 733-864) modulo configuration: counters zero, no
member animated, not delaying, not finished, no pending stagger. -/
def mkConstructedGroup (es : List Elem) (gid : String) (m : ℚ) (z : Bool)
    (gd : ℚ) (pol prev aafs trans : Bool) (rm : RemoveMode)
    (lis : Option String) : ElemGroup :=
  { elems := es.map (fun e => { e with isAnimated := false, isVisible := false }),
    groupId := gid,
    delayMultiplier := m,
    staggersFromZero := z,
    nextStaggeredDelay := none,
    groupDelay := gd,
    originalGroupDelay := gd,
    isDelaying := false,
    isFinishedAnimating := false,
    numElemsAnimated := 0,
    playsOnLoad := pol,
    playsReversed := prev,
    animatesAllOnFirstSight := if pol then false else aafs,
    upToDateIdx := 0,
    listen := lis,
    animatesWithTransitions := trans,
    removesAnimationWhenNotInView := rm,
    isVisible := if pol then true else false,
    numElemsVisible := 0 }

/-- A letter group over an element with `data-eca-animate-chars` but no
text: `wrapText` generates no `.letter` spans, so the constructor's
element query is empty and the group has no members. -/
def emptyCharsGroup : ElemGroup :=
  mkConstructedGroup [] "empty-letters" 0 false 0 false false false false .off none

/-- The member used in the stagger scenario: visible, not yet animated,
no unique delay (`t`, `b`, `th` are arbitrary geometry/threshold). -/
def staggerElem (t b th : ℚ) : Elem :=
  { top := t, bottom := b, threshold := th, originalThreshold := th,
    uniqueDelay := none, isVisible := true, isAnimated := false,
    delayStyle := none, hasAnimatedClass := false }

/-- A group of `k` consecutively animatable members with stagger
multiplier `M` and from-zero flag `z`, at the start of an update cycle
(no pending staggered delay). -/
def staggerGroup (k : Nat) (M : ℚ) (z : Bool) (t b th : ℚ) : ElemGroup :=
  { elems := List.replicate k (staggerElem t b th),
    groupId := "stagger",
    delayMultiplier := M,
    staggersFromZero := z,
    nextStaggeredDelay := none,
    groupDelay := 0,
    originalGroupDelay := 0,
    isDelaying := false,
    isFinishedAnimating := false,
    numElemsAnimated := 0,
    playsOnLoad := false,
    playsReversed := false,
    animatesAllOnFirstSight := false,
    upToDateIdx := 0,
    listen := none,
    animatesWithTransitions := false,
    removesAnimationWhenNotInView := .off,
    isVisible := true,
    numElemsVisible := (k : Int) }

/-- The stagger-scenario member after `animate` processed it with
assigned delay `d`. -/
def staggerDone (t b th d : ℚ) : Elem :=
  { staggerElem t b th with
    delayStyle := some d
    hasAnimatedClass := true
    isAnimated := true }

/-- The visibility formula exactly as the claim states it for the
polling strategy: the threshold-adjusted containment test, or the
element fully spanning the viewport. -/
def claimedVisibilityExpr (wh top bottom height threshold : ℚ)
    (wasVisible transitions : Bool) : Bool :=
  let pixelThreshold := height * threshold
  let pixelThreshold := if wasVisible && !transitions then 0 else pixelThreshold
  (decide (top + pixelThreshold < wh) && decide (bottom - pixelThreshold > 0)) ||
    (decide (top ≤ 0) && decide (bottom ≥ wh))

/-- The amended visibility description: only the threshold-adjusted
containment test, with the pixel threshold reduced by one pixel when
the threshold fraction is exactly 1 (and still zeroed when the member
is already visible and the group uses animations). -/
def amendedVisibilityExpr (wh top bottom height threshold : ℚ)
    (wasVisible transitions : Bool) : Bool :=
  let pixelThreshold :=
    if wasVisible && !transitions then 0
    else height * threshold - (if threshold = 1 then 1 else 0)
  decide (top + pixelThreshold < wh) && decide (bottom - pixelThreshold > 0)

/-- The members of the stagger scenario already processed this cycle:
member `m` carries the assigned delay `(m or m+1) * M`. -/
def staggerDones (M : ℚ) (z : Bool) (t b th : ℚ) (j : Nat) : List Elem :=
  (List.range j).map
    (fun (m : Nat) => staggerDone t b th ((if z then (m : ℚ) else (m : ℚ) + 1) * M))

/-- The group's pending staggered delay after `j` members of the
scenario have been processed. -/
def staggerNsd (M : ℚ) (z : Bool) (j : Nat) : Option ℚ :=
  if j = 0 then none else some ((if z then (j : ℚ) else (j : ℚ) + 1) * M)

/-- The stagger-scenario group mid-pass: the first `j` members
processed, the rest untouched. -/
def midStaggerState (k : Nat) (M : ℚ) (z : Bool) (t b th : ℚ) (j : Nat)
    (num : Int) (fin : Bool) : ElemGroup :=
  { staggerGroup k M z t b th with
    elems := staggerDones M z t b th j ++ List.replicate (k - j) (staggerElem t b th)
    nextStaggeredDelay := staggerNsd M z j
    numElemsAnimated := num
    isFinishedAnimating := fin }

/-! ## Helper lemmas -/

theorem listGetAppend {α : Type} (l1 : List α) (y : α) (l2 : List α) :
    (l1 ++ y :: l2)[l1.length]? = some y := by
  induction l1 with
  | nil => simp
  | cons a t ih => simpa using ih

theorem listSetAppend {α : Type} (l1 : List α) (y x : α) (l2 : List α) :
    (l1 ++ y :: l2).set l1.length x = l1 ++ x :: l2 := by
  induction l1 with
  | nil => rfl
  | cons a t ih => simp [List.set, ih]

theorem countP_set_eq {α : Type} (p : α → Bool) (l : List α) (i : Nat) (e x : α)
    (h : l[i]? = some e) :
    (l.set i x).countP p + (if p e then 1 else 0) =
      l.countP p + (if p x then 1 else 0) := by
  induction l generalizing i with
  | nil => simp at h
  | cons a t ih =>
    cases i with
    | zero =>
      simp only [List.getElem?_cons_zero, Option.some.injEq] at h
      subst h
      cases hpa : p a <;> cases hpx : p x <;>
        simp [List.set, List.countP_cons, hpa, hpx]
    | succ n =>
      simp only [List.getElem?_cons_succ] at h
      have := ih n h
      cases hpa : p a <;> simp [List.set, List.countP_cons, hpa] <;> omega

/-! ## C10: setter bookkeeping of the group counters -/

/-- C10: assigning a genuine boolean `b` to a member's `isVisible`
(resp. `isAnimated`) changes the owning group's `numElemsVisible`
(resp. `numElemsAnimated`) by +1 exactly when the flag goes from false
to true, by -1 exactly when it goes from true to false, and not at all
when `b` equals the stored flag. -/
theorem setter_counter_bookkeeping (g : ElemGroup) (i : Nat) (e : Elem) (b : Bool)
    (h : g.elems[i]? = some e) :
    (setIsVisible g i b).numElemsVisible =
      g.numElemsVisible + (if b = e.isVisible then 0 else if b then 1 else -1) ∧
    (setIsAnimated g i b).numElemsAnimated =
      g.numElemsAnimated + (if b = e.isAnimated then 0 else if b then 1 else -1) := by
  cases b <;> cases hv : e.isVisible <;> cases ha : e.isAnimated <;>
    simp [setIsVisible, setIsVisibleRaw, setIsAnimated, setIsAnimatedRaw, h, hv, ha,
      JSVal.strictEqBool, JSVal.truthy, ElemGroup.updateVisibility,
      ElemGroup.updateAnimationStatus]

/-- Witness for C10 at a concrete one-member group. -/
theorem setter_counter_bookkeeping_witness :
    (staggerGroup 1 1 false 0 0 0).elems[0]? = some (staggerElem 0 0 0) ∧
    (setIsAnimated (staggerGroup 1 1 false 0 0 0) 0 true).numElemsAnimated =
      (staggerGroup 1 1 false 0 0 0).numElemsAnimated + 1 :=
  ⟨rfl, by
    simpa [staggerElem] using
      (setter_counter_bookkeeping (staggerGroup 1 1 false 0 0 0) 0
        (staggerElem 0 0 0) true rfl).2⟩

/-! ## C5: at most one in-flight read+write cycle -/

/-- C5: invoking `requestAnimationUpdate` while a cycle is in flight
(`updating` still set, its write phase not yet run) performs neither
the read nor the update and queues nothing — the scheduler state is
unchanged; an invocation arriving when no cycle is in flight runs the
read phase synchronously and queues the write phase, which the next
animation-frame boundary completes. -/
theorem requestAnimationUpdate_exclusive {W : Type} (r u : W → W) (s : Sched W) :
    (s.updating = true → requestAnimationUpdate r u s = s) ∧
    (s.updating = false →
      requestAnimationUpdate r u s = ⟨r s.world, true, some u⟩ ∧
      frameBoundary (requestAnimationUpdate r u s) = ⟨u (r s.world), false, none⟩) := by
  constructor
  · intro h
    simp [requestAnimationUpdate, h]
  · intro h
    constructor <;> simp [requestAnimationUpdate, frameBoundary, h]

/-- Witness for C5 at concrete scheduler states over `W = Nat`. -/
theorem requestAnimationUpdate_exclusive_witness :
    requestAnimationUpdate Nat.succ id (⟨0, true, none⟩ : Sched Nat) = ⟨0, true, none⟩ ∧
    frameBoundary (requestAnimationUpdate Nat.succ id (⟨0, false, none⟩ : Sched Nat)) =
      ⟨1, false, none⟩ :=
  ⟨(requestAnimationUpdate_exclusive Nat.succ id ⟨0, true, none⟩).1 rfl,
   by simpa using ((requestAnimationUpdate_exclusive Nat.succ id ⟨0, false, none⟩).2 rfl).2⟩

/-! ## C3: polling-strategy visibility formula -/

/-- C3 counterexample: an element that fully spans the viewport
(top = 0, bottom = 1000, window height 500) with threshold 1 is NOT
visible under the code's polling formula, although the claimed formula
(with its fully-spans disjunct) says it is. -/
theorem calculateVisibility_spans_counterexample :
    visibilityExpr 500 0 1000 1000 1 false true = false ∧
    claimedVisibilityExpr 500 0 1000 1000 1 false true = true := by
  constructor <;> norm_num [visibilityExpr, claimedVisibilityExpr]

/-- C3 amended: the polling visibility flag is exactly the
threshold-adjusted containment test — (top + pixelThreshold) <
windowHeight AND (bottom − pixelThreshold) > 0 — with no fully-spans
disjunct, where pixelThreshold is the fractional threshold times the
member's own height minus one pixel when the threshold is exactly 1,
is zeroed when the member is already visible and the group uses
animations rather than transitions, and never exceeds the member's
height. -/
theorem calculateVisibility_amended (wh top bottom height threshold : ℚ)
    (wasVisible transitions : Bool)
    (ht : threshold ∈ nextSmallestThreshold) (hh : 0 ≤ height) :
    visibilityExpr wh top bottom height threshold wasVisible transitions =
      amendedVisibilityExpr wh top bottom height threshold wasVisible transitions ∧
    (if wasVisible && !transitions then 0
     else height * threshold - (if threshold = 1 then 1 else 0)) ≤ height := by
  constructor
  · rfl
  · split
    · exact hh
    · fin_cases ht <;> norm_num <;> linarith

/-- Witness for the amended C3 theorem at a concrete input. -/
theorem calculateVisibility_amended_witness :
    ((1 : ℚ)/4) ∈ nextSmallestThreshold ∧
    visibilityExpr 500 100 200 100 (1/4) false true =
      amendedVisibilityExpr 500 100 200 100 (1/4) false true :=
  ⟨by norm_num [nextSmallestThreshold],
   (calculateVisibility_amended 500 100 200 100 (1/4) false true
      (by norm_num [nextSmallestThreshold]) (by norm_num)).1⟩

/-! ## C8: event-name translation for listener wiring -/

/-- C8: evaluating the embedded `getEventStyles` shows the reserved
abbreviations are dropped — a mapping containing only `"iteration"`
(or only `"run"`) produces NO event entry at all, because the source
tests the freshly reset `event` variable (always `""`) instead of
`eventAbbrv` in those branches — while non-reserved keys are translated
with the `animation`/`transition` prefix as documented. -/
theorem getEventStyles_drops_reserved_keys :
    getEventStyles [("iteration", "opacity: 0")] false = [] ∧
    getEventStyles [("run", "opacity: 1")] true = [] ∧
    getEventStyles [("start", "color: red"), ("end", "color: blue")] false =
      [("animationstart", "color: red"), ("animationend", "color: blue")] ∧
    getEventStyles [("start", "color: red")] true =
      [("transitionstart", "color: red")] := by
  refine ⟨?_, ?_, ?_, ?_⟩ <;> rfl

/-! ## C9: malformed listener JSON is recovered locally -/

/-- C9: when the group's raw listener spec fails to parse,
`addListeners` attaches no listeners, emits the two diagnostics (the
error and a message naming the group id), does not throw, and leaves
the group state exactly as it was. -/
theorem addListeners_malformed_recovers (parse : String → ParseOutcome)
    (g : ElemGroup) (s e : String) (hl : g.listen = some s)
    (hp : parse s = .error e) :
    addListeners parse g =
      (g, ⟨[], [e, "Please make sure the data-eca-listen object on " ++ g.groupId ++
                " is properly formatted JSON."], false⟩) := by
  simp [addListeners, hl, hp]

/-- Witness for C9: a concrete group whose listener spec fails to
parse. -/
theorem addListeners_malformed_recovers_witness :
    addListeners (fun _ => .error "SyntaxError: Unexpected token")
      (mkConstructedGroup [] "box" 0 false 0 false false false false .off
        (some "not json")) =
      (mkConstructedGroup [] "box" 0 false 0 false false false false .off
        (some "not json"),
       ⟨[], ["SyntaxError: Unexpected token",
             "Please make sure the data-eca-listen object on " ++ "box" ++
               " is properly formatted JSON."], false⟩) :=
  addListeners_malformed_recovers (fun _ => .error "SyntaxError: Unexpected token")
    _ "not json" "SyntaxError: Unexpected token" rfl rfl


/-! ## C6: threshold clamping -/

theorem nst0 : nextSmallestThreshold.getD 0 0 = 0 := rfl

theorem nst1 : nextSmallestThreshold.getD 1 0 = 1/4 := rfl

theorem nst2 : nextSmallestThreshold.getD 2 0 = 1/2 := rfl

theorem nst3 : nextSmallestThreshold.getD 3 0 = 3/4 := rfl

theorem nst4 : nextSmallestThreshold.getD 4 0 = 1 := rfl

theorem whileIdx_eq (w : ℚ) :
    thresholdWhileIdx w 4 =
      if w < 1 then
        if w < 3/4 then
          if w < 1/2 then
            if w < 1/4 then 0 else 1
          else 2
        else 3
      else 4 := rfl

theorem whileIdx_greatest (w : ℚ) (hw0 : 0 ≤ w) (hw1 : w < 1) :
    nextSmallestThreshold.getD (thresholdWhileIdx w 4) 0 ∈ nextSmallestThreshold ∧
    nextSmallestThreshold.getD (thresholdWhileIdx w 4) 0 ≤ w ∧
    ∀ x ∈ nextSmallestThreshold, x ≤ w →
      x ≤ nextSmallestThreshold.getD (thresholdWhileIdx w 4) 0 := by
  rw [whileIdx_eq, if_pos hw1]
  by_cases h34 : w < 3/4
  · rw [if_pos h34]
    by_cases h12 : w < 1/2
    · rw [if_pos h12]
      by_cases h14 : w < 1/4
      · rw [if_pos h14, nst0]
        refine ⟨by norm_num [nextSmallestThreshold], hw0, ?_⟩
        intro x hx hxw
        fin_cases hx <;> linarith
      · rw [if_neg h14, nst1]
        refine ⟨by norm_num [nextSmallestThreshold], by linarith [not_lt.1 h14], ?_⟩
        intro x hx hxw
        fin_cases hx <;> linarith
    · rw [if_neg h12, nst2]
      refine ⟨by norm_num [nextSmallestThreshold], by linarith [not_lt.1 h12], ?_⟩
      intro x hx hxw
      fin_cases hx <;> linarith
  · rw [if_neg h34, nst3]
    refine ⟨by norm_num [nextSmallestThreshold], by linarith [not_lt.1 h34], ?_⟩
    intro x hx hxw
    fin_cases hx <;> linarith

/-- C6: for a member taller than the viewport whose configured
(original) threshold exceeds the height-derived maximum
`windowHeight / elemHeight`, the corrected threshold is the greatest
member of {0, 0.25, 0.5, 0.75, 1} not exceeding that maximum — so it
never exceeds the maximum and never exceeds the configured original —
and when the member no longer exceeds the viewport height the original
threshold is restored. -/
theorem correctThreshold_clamps (wh h o : ℚ) (hwh : 0 ≤ wh) :
    (h > wh → wh / h < o →
      correctThreshold wh h o ∈ nextSmallestThreshold ∧
      correctThreshold wh h o ≤ wh / h ∧
      correctThreshold wh h o ≤ o ∧
      ∀ t ∈ nextSmallestThreshold, t ≤ wh / h → t ≤ correctThreshold wh h o) ∧
    (h ≤ wh → correctThreshold wh h o = o) := by
  constructor
  · intro hgt hlt
    have hpos : 0 < h := lt_of_le_of_lt hwh hgt
    have hw0 : 0 ≤ wh / h := div_nonneg hwh (le_of_lt hpos)
    have hw1 : wh / h < 1 := (div_lt_one hpos).2 hgt
    have ho0 : o ≠ 0 := by
      intro h0
      rw [h0] at hlt
      linarith
    obtain ⟨hmem, hle, hmax⟩ := whileIdx_greatest (wh / h) hw0 hw1
    have hto : nextSmallestThreshold.getD (thresholdWhileIdx (wh / h) 4) 0 ≤ o :=
      le_of_lt (lt_of_le_of_lt hle hlt)
    rw [correctThreshold, if_neg ho0, if_pos hgt]
    simp only [if_pos hto]
    exact ⟨hmem, hle, hto, hmax⟩
  · intro hle
    rw [correctThreshold]
    split
    · rfl
    · rw [if_neg (by linarith : ¬ h > wh)]

/-- Witness for C6: viewport 500, member height 1000, configured
threshold 1: the height-derived maximum is 1/2 and the corrected
threshold is at most that. -/
theorem correctThreshold_clamps_witness :
    (0 : ℚ) ≤ 500 ∧
    correctThreshold 500 1000 1 ≤ 500 / 1000 ∧
    correctThreshold 500 1000 1 = 1/2 :=
  ⟨by norm_num,
   (((correctThreshold_clamps 500 1000 1 (by norm_num)).1
      (by norm_num) (by norm_num)).2).1,
   by norm_num [correctThreshold, whileIdx_eq, nextSmallestThreshold]⟩

/-! ## Characterizations of the boolean setters -/

theorem setIsAnimated_none (g : ElemGroup) (i : Nat) (b : Bool)
    (he : g.elems[i]? = none) : setIsAnimated g i b = g := by
  simp [setIsAnimated, setIsAnimatedRaw, he]

theorem setIsAnimated_eq (g : ElemGroup) (i : Nat) (b : Bool) (e : Elem)
    (he : g.elems[i]? = some e) (hbe : b = e.isAnimated) :
    setIsAnimated g i b =
      { g with elems := g.elems.set i { e with isAnimated := b } } := by
  cases b <;> cases hx : e.isAnimated <;>
    simp_all [setIsAnimated, setIsAnimatedRaw, JSVal.strictEqBool, JSVal.truthy]

theorem setIsAnimated_ne (g : ElemGroup) (i : Nat) (b : Bool) (e : Elem)
    (he : g.elems[i]? = some e) (hbe : b ≠ e.isAnimated) :
    setIsAnimated g i b =
      { g with elems := g.elems.set i { e with isAnimated := b },
               numElemsAnimated := g.numElemsAnimated + (if b then 1 else -1),
               isFinishedAnimating :=
                 decide (g.numElemsAnimated + (if b then 1 else -1) =
                   (g.elems.length : Int)) } := by
  cases b <;> cases hx : e.isAnimated <;>
    simp_all [setIsAnimated, setIsAnimatedRaw, JSVal.strictEqBool, JSVal.truthy,
      ElemGroup.updateAnimationStatus, List.length_set]

theorem setIsVisible_none (g : ElemGroup) (i : Nat) (b : Bool)
    (he : g.elems[i]? = none) : setIsVisible g i b = g := by
  simp [setIsVisible, setIsVisibleRaw, he]

theorem setIsVisible_eq (g : ElemGroup) (i : Nat) (b : Bool) (e : Elem)
    (he : g.elems[i]? = some e) (hbe : b = e.isVisible) :
    setIsVisible g i b =
      { g with elems := g.elems.set i { e with isVisible := b } } := by
  cases b <;> cases hx : e.isVisible <;>
    simp_all [setIsVisible, setIsVisibleRaw, JSVal.strictEqBool, JSVal.truthy]

theorem setIsVisible_ne (g : ElemGroup) (i : Nat) (b : Bool) (e : Elem)
    (he : g.elems[i]? = some e) (hbe : b ≠ e.isVisible) :
    setIsVisible g i b =
      { g with elems := g.elems.set i { e with isVisible := b },
               numElemsVisible := g.numElemsVisible + (if b then 1 else -1),
               isVisible :=
                 decide (g.numElemsVisible + (if b then 1 else -1) > 0) } := by
  cases b <;> cases hx : e.isVisible <;>
    simp_all [setIsVisible, setIsVisibleRaw, JSVal.strictEqBool, JSVal.truthy,
      ElemGroup.updateVisibility]

/-! ## C1: aggregate consistency of the animated counters -/

theorem groupInv_mapElemAt (g : ElemGroup) (i : Nat) (f : Elem → Elem)
    (hf : ∀ e, (f e).isAnimated = e.isAnimated) (h : GroupInv g) :
    GroupInv (mapElemAt g i f) := by
  unfold mapElemAt
  cases he : g.elems[i]? with
  | none => exact h
  | some e =>
    dsimp only
    obtain ⟨h1, h2⟩ := h
    have hc := countP_set_eq (fun x => x.isAnimated) g.elems i e (f e) he
    simp only [hf] at hc
    have hcount : (g.elems.set i (f e)).countP (fun x => x.isAnimated) =
        g.elems.countP (fun x => x.isAnimated) := by omega
    constructor
    · simpa [hcount] using h1
    · simpa [List.length_set] using h2

theorem groupInv_setDelayStyle (g : ElemGroup) (i : Nat) (d : Option ℚ)
    (h : GroupInv g) :
    GroupInv (mapElemAt g i (fun x => { x with delayStyle := d })) :=
  groupInv_mapElemAt g i (fun x => { x with delayStyle := d }) (fun _ => rfl) h

theorem groupInv_setClass (g : ElemGroup) (i : Nat) (c : Bool)
    (h : GroupInv g) :
    GroupInv (mapElemAt g i (fun x => { x with hasAnimatedClass := c })) :=
  groupInv_mapElemAt g i (fun x => { x with hasAnimatedClass := c }) (fun _ => rfl) h

theorem groupInv_updateNext (g : ElemGroup) (h : GroupInv g) :
    GroupInv g.updateNextStaggeredDelay := by
  unfold ElemGroup.updateNextStaggeredDelay
  split_ifs <;> exact h

theorem groupInv_setIsAnimated (g : ElemGroup) (i : Nat) (b : Bool)
    (h : GroupInv g) : GroupInv (setIsAnimated g i b) := by
  cases he : g.elems[i]? with
  | none => rw [setIsAnimated_none g i b he]; exact h
  | some e =>
    obtain ⟨h1, h2⟩ := h
    have hc := countP_set_eq (fun x => x.isAnimated) g.elems i e
      { e with isAnimated := b } he
    by_cases hbe : b = e.isAnimated
    · rw [setIsAnimated_eq g i b e he hbe]
      have hcount : (g.elems.set i { e with isAnimated := b }).countP
          (fun x => x.isAnimated) = g.elems.countP (fun x => x.isAnimated) := by
        simp only at hc
        rw [hbe] at hc ⊢
        omega
      constructor
      · simpa [hcount] using h1
      · simpa [List.length_set] using h2
    · rw [setIsAnimated_ne g i b e he hbe]
      have hea : e.isAnimated = !b := by
        cases b <;> cases hx : e.isAnimated <;> simp_all
      constructor
      · show g.numElemsAnimated + (if b then 1 else -1) =
          ((g.elems.set i { e with isAnimated := b }).countP
            (fun x => x.isAnimated) : Int)
        rw [h1]
        simp only [hea] at hc
        cases b <;> simp only [Bool.not_true, Bool.not_false] at hc <;>
          · simp at hc ⊢
            omega
      · simp [List.length_set]

theorem groupInv_animate (g : ElemGroup) (i : Nat) (h : GroupInv g) :
    GroupInv (animate g i) := by
  unfold animate
  cases he : g.elems[i]? with
  | none => exact h
  | some e =>
    dsimp only
    apply groupInv_setIsAnimated
    apply groupInv_setClass
    split_ifs
    · exact groupInv_updateNext _ (groupInv_setDelayStyle _ _ _ h)
    · exact groupInv_updateNext _ h
    · exact groupInv_setDelayStyle _ _ _ h
    · exact h

theorem groupInv_deAnimate (g : ElemGroup) (i : Nat) (h : GroupInv g) :
    GroupInv (deAnimate g i) := by
  unfold deAnimate
  cases he : g.elems[i]? with
  | none => exact h
  | some e =>
    dsimp only
    exact groupInv_setDelayStyle _ _ _
      (groupInv_setIsAnimated _ _ _ (groupInv_setClass _ _ _ h))

theorem groupInv_step {g h : ElemGroup} (st : AnimStep g h) (hg : GroupInv g) :
    GroupInv h := by
  cases st with
  | set i b => exact groupInv_setIsAnimated _ i b hg
  | animateOp i => exact groupInv_animate _ i hg
  | deAnimateOp i => exact groupInv_deAnimate _ i hg

/-- C1 (amended): for every group with at least one member, every state
reachable from the constructor state through `animate`, `deAnimate` and
boolean assignments to the `isAnimated` setter satisfies the aggregate
consistency property: `numElemsAnimated` equals the number of members
whose `isAnimated` flag is true, and `isFinishedAnimating` holds iff
`numElemsAnimated` equals the member count. -/
theorem aggregate_consistency_invariant (g0 g : ElemGroup)
    (h0n : g0.numElemsAnimated = 0) (h0f : g0.isFinishedAnimating = false)
    (h0e : ∀ e ∈ g0.elems, e.isAnimated = false) (hne : g0.elems.length ≠ 0)
    (hr : ReachableAnim g0 g) : GroupInv g := by
  induction hr with
  | refl =>
    constructor
    · rw [h0n, List.countP_eq_zero.2 (by simpa using h0e)]
      rfl
    · rw [h0n, h0f]
      constructor
      · intro hx
        exact absurd hx (by simp)
      · intro hx
        exact absurd hx.symm (by exact_mod_cast hne)
  | step _ st ih => exact groupInv_step st ih

/-- C1 counterexample: a letter group constructed over an element with
no text has zero members; at its (trivially reachable) constructor
state `numElemsAnimated = 0` equals the member count `0`, yet
`isFinishedAnimating` is false — the claimed iff fails for the empty
group. -/
theorem aggregate_consistency_counterexample :
    ReachableAnim emptyCharsGroup emptyCharsGroup ∧ ¬ GroupInv emptyCharsGroup :=
  ⟨.refl, by decide⟩

/-- Witness for the amended C1 theorem at a concrete one-member group. -/
theorem aggregate_consistency_invariant_witness :
    GroupInv (staggerGroup 1 1 false 0 0 0) :=
  aggregate_consistency_invariant (staggerGroup 1 1 false 0 0 0) _
    rfl rfl (by decide) (by decide) .refl

/-! ## C7: group-id assignment -/

theorem digitChar_toNat (d : Nat) (hd : d < 10) :
    (Char.ofNat (48 + d)).toNat = 48 + d := by
  interval_cases d <;> decide

theorem charsVal_append_one (l : List Char) (c : Char) :
    charsVal (l ++ [c]) = 10 * charsVal l + (c.toNat - 48) := by
  simp [charsVal, List.foldl_append]

theorem charsVal_natCharsGo (fuel n : Nat) (h : n < fuel) :
    charsVal (natCharsGo fuel n) = n := by
  induction fuel generalizing n with
  | zero => omega
  | succ fuel ih =>
    rw [natCharsGo]
    by_cases h10 : n < 10
    · rw [if_pos h10]
      have : charsVal [Char.ofNat (48 + n)] = (Char.ofNat (48 + n)).toNat - 48 := by
        simp [charsVal]
      rw [this, digitChar_toNat n h10]
      omega
    · rw [if_neg h10]
      have hdiv : n / 10 < n := Nat.div_lt_self (by omega) (by omega)
      rw [charsVal_append_one, ih (n / 10) (by omega),
        digitChar_toNat (n % 10) (Nat.mod_lt n (by omega))]
      omega

theorem charsVal_natChars (n : Nat) : charsVal (natChars n) = n :=
  charsVal_natCharsGo (n + 1) n (Nat.lt_succ_self n)

theorem natChars_injective (a b : Nat) (h : natChars a = natChars b) : a = b := by
  have := charsVal_natChars a
  rw [h, charsVal_natChars b] at this
  omega

theorem natCharsGo_ne_nil (fuel n : Nat) (h : n < fuel) :
    natCharsGo fuel n ≠ [] := by
  cases fuel with
  | zero => omega
  | succ fuel =>
    rw [natCharsGo]
    split <;> simp

theorem natChars_ne_nil (n : Nat) : natChars n ≠ [] :=
  natCharsGo_ne_nil (n + 1) n (Nat.lt_succ_self n)

theorem assignIdsGo_cons (i : Nat) (used : List (List Char)) (hd : List Char)
    (tl : List (List Char)) :
    assignIdsGo i used (hd :: tl) =
      (if hd ∈ used then hd ++ natChars i else hd) ::
        assignIdsGo (i + 1) ((if hd ∈ used then hd ++ natChars i else hd) :: used) tl :=
  rfl

theorem assignIdsGo_get_mem (l : List (List Char)) (i : Nat)
    (used : List (List Char)) (k : Nat) (b : List Char)
    (hk : l[k]? = some b) (hmem : b ∈ used) :
    (assignIdsGo i used l)[k]? = some (b ++ natChars (i + k)) := by
  induction l generalizing i used k with
  | nil => simp at hk
  | cons hd tl ih =>
    cases k with
    | zero =>
      have hb : hd = b := by simpa using hk
      rw [assignIdsGo_cons, hb, if_pos hmem]
      simp
    | succ k =>
      simp only [List.getElem?_cons_succ] at hk
      rw [assignIdsGo_cons]
      have hmem2 : b ∈ (if hd ∈ used then hd ++ natChars i else hd) :: used :=
        List.mem_cons_of_mem _ hmem
      have := ih (i + 1) ((if hd ∈ used then hd ++ natChars i else hd) :: used) k hk hmem2
      have harith : i + (k + 1) = (i + 1) + k := by omega
      rw [harith]
      simpa using this

theorem assignIdsGo_get_shape (l : List (List Char)) (i : Nat)
    (used : List (List Char)) (k : Nat) (b : List Char)
    (hk : l[k]? = some b) :
    (assignIdsGo i used l)[k]? = some b ∨
      (assignIdsGo i used l)[k]? = some (b ++ natChars (i + k)) := by
  induction l generalizing i used k with
  | nil => simp at hk
  | cons hd tl ih =>
    cases k with
    | zero =>
      have hb : hd = b := by simpa using hk
      rw [assignIdsGo_cons, hb]
      by_cases hmem : b ∈ used
      · right
        rw [if_pos hmem]
        simp
      · left
        rw [if_neg hmem]
        simp
    | succ k =>
      simp only [List.getElem?_cons_succ] at hk
      rw [assignIdsGo_cons]
      have := ih (i + 1) ((if hd ∈ used then hd ++ natChars i else hd) :: used) k hk
      rcases this with h | h
      · left
        simpa using h
      · right
        have harith : i + (k + 1) = (i + 1) + k := by omega
        rw [harith]
        simpa using h

theorem assignIdsGo_same_base (l : List (List Char)) (i : Nat)
    (used : List (List Char)) (j k : Nat) (b : List Char)
    (hjk : j < k) (hj : l[j]? = some b) (hk : l[k]? = some b) :
    (assignIdsGo i used l)[k]? = some (b ++ natChars (i + k)) := by
  induction l generalizing i used j k with
  | nil => simp at hj
  | cons hd tl ih =>
    cases k with
    | zero => omega
    | succ k =>
      simp only [List.getElem?_cons_succ] at hk
      rw [assignIdsGo_cons]
      cases j with
      | zero =>
        have hb : hd = b := by simpa using hj
        rw [hb]
        have hmem2 : b ∈ (if b ∈ used then b ++ natChars i else b) :: used := by
          by_cases hmem : b ∈ used
          · exact List.mem_cons_of_mem _ hmem
          · rw [if_neg hmem]
            exact List.mem_cons_self _ _
        have := assignIdsGo_get_mem tl (i + 1)
          ((if b ∈ used then b ++ natChars i else b) :: used) k b hk hmem2
        have harith : i + (k + 1) = (i + 1) + k := by omega
        rw [harith]
        simpa using this
      | succ j =>
        simp only [List.getElem?_cons_succ] at hj
        have := ih (i + 1) ((if hd ∈ used then hd ++ natChars i else hd) :: used)
          j k (by omega) hj hk
        have harith : i + (k + 1) = (i + 1) + k := by omega
        rw [harith]
        simpa using this

/-- C7 (amended): among groups sharing the same base id (leading class
name, plus the `-letters` suffix for text groups), assigned ids are
pairwise distinct — a repeated base receives the running loop index as
suffix.  (Ids of groups with DIFFERENT base class names can still
collide: a class name that literally equals another base id with its
loop index appended yields a duplicate id, see the counterexample.) -/
theorem group_ids_unique_same_base (bases : List (List Char)) (j k : Nat)
    (b idj idk : List Char) (hjk : j < k)
    (hbj : bases[j]? = some b) (hbk : bases[k]? = some b)
    (hij : (assignIds bases)[j]? = some idj)
    (hik : (assignIds bases)[k]? = some idk) :
    idj ≠ idk := by
  have hk2 := assignIdsGo_same_base bases 0 [] j k b hjk hbj hbk
  rw [assignIds] at hij hik
  rw [hik] at hk2
  have hidk : idk = b ++ natChars (0 + k) := by
    exact Option.some.inj hk2
  have hj2 := assignIdsGo_get_shape bases 0 [] j b hbj
  rcases hj2 with h | h
  · rw [hij] at h
    have hidj : idj = b := Option.some.inj h
    rw [hidj, hidk]
    intro heq
    have hlen := congrArg List.length heq
    simp only [List.length_append] at hlen
    have hne := natChars_ne_nil (0 + k)
    have hlz : (natChars (0 + k)).length ≠ 0 := by
      simpa [List.length_eq_zero] using hne
    omega
  · rw [hij] at h
    have hidj : idj = b ++ natChars (0 + j) := Option.some.inj h
    rw [hidj, hidk]
    intro heq
    have hnc : natChars (0 + j) = natChars (0 + k) :=
      (List.append_right_inj b).1 heq
    have := natChars_injective _ _ hnc
    omega

/-- C7 counterexample: first-elements with leading classes
`card2`, `card`, `card` (none text groups).  The third group's base
`card` repeats, so it receives its loop index `2` as suffix — but the
resulting id `card2` equals the FIRST group's id, so the constructed
ids are not unique among all concurrently tracked groups. -/
theorem group_ids_counterexample :
    readyElementsGroupIds
        [("card2".data, false), ("card".data, false), ("card".data, false)] =
      ["card2".data, "card".data, "card2".data] ∧
    (readyElementsGroupIds
        [("card2".data, false), ("card".data, false), ("card".data, false)])[0]? =
      (readyElementsGroupIds
        [("card2".data, false), ("card".data, false), ("card".data, false)])[2]? := by
  constructor <;> rfl

/-- Witness for the amended C7 theorem: two groups with the same
leading class `card` get the distinct ids `card` and `card1`. -/
theorem group_ids_unique_same_base_witness :
    (assignIds ["card".data, "card".data])[0]? = some "card".data ∧
    (assignIds ["card".data, "card".data])[1]? =
      some ("card".data ++ natChars 1) ∧
    "card".data ≠ "card".data ++ natChars 1 :=
  ⟨rfl, rfl,
   group_ids_unique_same_base ["card".data, "card".data] 0 1 "card".data
     "card".data ("card".data ++ natChars 1) (by omega) rfl rfl rfl rfl⟩

/-! ## C4: group-delay gating -/

theorem listGetSet_self {α : Type} (l : List α) (i : Nat) (a : α)
    (h : i < l.length) : (l.set i a)[i]? = some a := by
  induction l generalizing i with
  | nil => simp at h
  | cons hd tl ih =>
    cases i with
    | zero => simp [List.set]
    | succ i =>
      simp only [List.set, List.getElem?_cons_succ]
      exact ih i (by simpa using h)

theorem listGetSet_other {α : Type} (l : List α) (i m : Nat) (a : α)
    (h : m ≠ i) : (l.set i a)[m]? = l[m]? := by
  induction l generalizing i m with
  | nil => simp
  | cons hd tl ih =>
    cases i with
    | zero =>
      cases m with
      | zero => omega
      | succ m => simp [List.set]
    | succ i =>
      cases m with
      | zero => simp [List.set]
      | succ m =>
        simp only [List.set, List.getElem?_cons_succ]
        exact ih i m (by omega)

/-- What one `calculateVisibility` call does: it rewrites only the
member at index `i` (fresh `top`/`bottom` and the recomputed
`isVisible` flag) and the group aggregates; the per-member
configuration and the group's delay state are untouched. -/
theorem calculateVisibility_spec (wh : ℚ) (geom : ℚ × ℚ × ℚ) (g : ElemGroup)
    (i : Nat) :
    (calculateVisibility wh geom g i).animatesWithTransitions =
        g.animatesWithTransitions ∧
    (calculateVisibility wh geom g i).groupDelay = g.groupDelay ∧
    (calculateVisibility wh geom g i).isDelaying = g.isDelaying ∧
    (∀ m, m ≠ i → (calculateVisibility wh geom g i).elems[m]? = g.elems[m]?) ∧
    (∀ e, g.elems[i]? = some e →
      (calculateVisibility wh geom g i).elems[i]? =
        some { e with
               top := geom.1
               bottom := geom.2.1
               isVisible := visibilityExpr wh geom.1 geom.2.1 geom.2.2
                 e.threshold e.isVisible g.animatesWithTransitions }) := by
  unfold calculateVisibility
  cases he : g.elems[i]? with
  | none =>
    refine ⟨rfl, rfl, rfl, fun m _ => rfl, fun e hee => ?_⟩
    exact absurd hee (by simp)
  | some e =>
    dsimp only
    have hlen : i < g.elems.length := by
      by_contra hcon
      rw [List.getElem?_eq_none (by omega)] at he
      exact absurd he (by simp)
    have hset : (g.elems.set i { e with top := geom.1, bottom := geom.2.1 })[i]? =
        some { e with top := geom.1, bottom := geom.2.1 } :=
      listGetSet_self _ _ _ hlen
    by_cases hb : visibilityExpr wh geom.1 geom.2.1 geom.2.2 e.threshold e.isVisible
        g.animatesWithTransitions = e.isVisible
    · rw [setIsVisible_eq _ i _ _ hset (by exact hb)]
      refine ⟨rfl, rfl, rfl, fun m hm => ?_, fun x hx => ?_⟩
      · show ((g.elems.set i _).set i _)[m]? = _
        rw [List.set_set]
        exact listGetSet_other _ _ _ _ hm
      · have hex : e = x := by injection hx
        subst hex
        show ((g.elems.set i _).set i _)[i]? = _
        rw [List.set_set]
        rw [hb]
        exact listGetSet_self _ _ _ hlen
    · rw [setIsVisible_ne _ i _ _ hset (by exact hb)]
      refine ⟨rfl, rfl, rfl, fun m hm => ?_, fun x hx => ?_⟩
      · show ((g.elems.set i _).set i _)[m]? = _
        rw [List.set_set]
        exact listGetSet_other _ _ _ _ hm
      · have hex : e = x := by injection hx
        subst hex
        show ((g.elems.set i _).set i _)[i]? = _
        rw [List.set_set]
        exact listGetSet_self _ _ _ hlen

theorem readFold_spec (wh : ℚ) (geoms : Nat → ℚ × ℚ × ℚ) (r : Nat) :
    ∀ (j : Nat) (g : ElemGroup),
    ((List.range' j r).foldl (fun h i => calculateVisibility wh (geoms i) h i)
        g).animatesWithTransitions = g.animatesWithTransitions ∧
    ((List.range' j r).foldl (fun h i => calculateVisibility wh (geoms i) h i)
        g).groupDelay = g.groupDelay ∧
    ((List.range' j r).foldl (fun h i => calculateVisibility wh (geoms i) h i)
        g).isDelaying = g.isDelaying ∧
    (∀ i, i < j ∨ j + r ≤ i →
      ((List.range' j r).foldl (fun h i => calculateVisibility wh (geoms i) h i)
          g).elems[i]? = g.elems[i]?) ∧
    (∀ i e, j ≤ i → i < j + r → g.elems[i]? = some e →
      ((List.range' j r).foldl (fun h i => calculateVisibility wh (geoms i) h i)
          g).elems[i]? =
        some { e with
               top := (geoms i).1
               bottom := (geoms i).2.1
               isVisible := visibilityExpr wh (geoms i).1 (geoms i).2.1 (geoms i).2.2
                 e.threshold e.isVisible g.animatesWithTransitions }) := by
  induction r with
  | zero =>
    intro j g
    refine ⟨rfl, rfl, rfl, fun i _ => rfl, fun i e h1 h2 _ => ?_⟩
    omega
  | succ r ih =>
    intro j g
    rw [List.range'_succ]
    simp only [List.foldl_cons]
    obtain ⟨sTrans, sDelay, sDelaying, sOther, sSelf⟩ :=
      calculateVisibility_spec wh (geoms j) g j
    obtain ⟨iTrans, iDelay, iDelaying, iOther, iSelf⟩ :=
      ih (j + 1) (calculateVisibility wh (geoms j) g j)
    refine ⟨by rw [iTrans, sTrans], by rw [iDelay, sDelay],
            by rw [iDelaying, sDelaying], ?_, ?_⟩
    · intro i hi
      rw [iOther i (by omega), sOther i (by omega)]
    · intro i e hji hir he
      by_cases hij : i = j
      · subst hij
        rw [iOther i (by omega), sSelf e he]
      · have hgi : (calculateVisibility wh (geoms j) g j).elems[i]? = some e := by
          rw [sOther i hij, he]
        have := iSelf i e (by omega) (by omega) hgi
        rw [this, sTrans]

theorem readOne_spec (wh : ℚ) (geoms : Nat → ℚ × ℚ × ℚ) (g : ElemGroup) :
    (readOne wh geoms g).groupDelay = g.groupDelay ∧
    (readOne wh geoms g).isDelaying = g.isDelaying ∧
    (∀ (i : Nat) (e : Elem), g.elems[i]? = some e →
      (readOne wh geoms g).elems[i]? =
        some { e with
               top := (geoms i).1
               bottom := (geoms i).2.1
               isVisible := visibilityExpr wh (geoms i).1 (geoms i).2.1 (geoms i).2.2
                 e.threshold e.isVisible g.animatesWithTransitions }) ∧
    (∀ (i : Nat), g.elems[i]? = none → (readOne wh geoms g).elems[i]? = none) := by
  obtain ⟨fTrans, fDelay, fDelaying, fOther, fSelf⟩ :=
    readFold_spec wh geoms g.elems.length 0 g
  refine ⟨by rw [readOne, List.range_eq_range']; exact fDelay,
          by rw [readOne, List.range_eq_range']; exact fDelaying, ?_, ?_⟩
  · intro i e he
    have hlen : i < g.elems.length := by
      by_contra hcon
      rw [List.getElem?_eq_none (by omega)] at he
      exact absurd he (by simp)
    rw [readOne, List.range_eq_range']
    exact fSelf i e (by omega) (by omega) he
  · intro i he
    have hlen : g.elems.length ≤ i := List.getElem?_eq_none_iff.1 he
    rw [readOne, List.range_eq_range', fOther i (by omega)]
    exact he

/-- C4: for a group with a positive configured delay that is visible at
update time, `updateOne` defers the entire per-member pass: the group is
marked delaying and a one-shot timer of the configured duration is
scheduled, with every member untouched; while the group is delaying any
number of further update cycles leave it unchanged (so no member is
animated or de-animated before the timer fires); and the timer callback
zeroes the group delay, clears the delaying flag, re-derives every
member's visibility from freshly read geometry (polling mode), leaves
every member's animated state untouched, and hands the normal
per-member pass (`updateOne` on the new state) to the next
animation-frame boundary. -/
theorem groupDelay_gating (wh : ℚ) (geoms : Nat → ℚ × ℚ × ℚ) (g : ElemGroup)
    (hd : 0 < g.groupDelay) (hv : g.isVisible = true) :
    updateOne wh g = .deferred (delayGroupMark g) g.groupDelay ∧
    (delayGroupMark g).elems = g.elems ∧
    (delayGroupMark g).isDelaying = true ∧
    (∀ (n : Nat) (h : ElemGroup), h.isDelaying = true → iterCycles wh n h = h) ∧
    (groupDelayTimerCb true wh geoms (delayGroupMark g)).1.groupDelay = 0 ∧
    (groupDelayTimerCb true wh geoms (delayGroupMark g)).1.isDelaying = false ∧
    (∀ (i : Nat) (e : Elem), g.elems[i]? = some e →
      (groupDelayTimerCb true wh geoms (delayGroupMark g)).1.elems[i]? =
        some { e with
               top := (geoms i).1
               bottom := (geoms i).2.1
               isVisible := visibilityExpr wh (geoms i).1 (geoms i).2.1 (geoms i).2.2
                 e.threshold e.isVisible g.animatesWithTransitions }) ∧
    (∀ (i : Nat), ((groupDelayTimerCb true wh geoms (delayGroupMark g)).1.elems[i]?).map
        (fun e => e.isAnimated) = (g.elems[i]?).map (fun e => e.isAnimated)) ∧
    (groupDelayTimerCb true wh geoms (delayGroupMark g)).2 =
      updateOne wh (groupDelayTimerCb true wh geoms (delayGroupMark g)).1 := by
  obtain ⟨rDelay, rDelaying, rSelf, rNone⟩ :=
    readOne_spec wh geoms
      { delayGroupMark g with groupDelay := 0, isDelaying := false }
  refine ⟨by simp [updateOne, hd, hv], rfl, rfl, ?_, ?_, ?_, ?_, ?_, rfl⟩
  · intro n
    induction n with
    | zero =>
      intro h _
      rfl
    | succ n ihn =>
      intro h hdel
      show iterCycles wh n (updateAllOne wh h) = h
      have : updateAllOne wh h = h := by
        simp [updateAllOne, hdel]
      rw [this]
      exact ihn h hdel
  · show (groupDelayTimerCb true wh geoms (delayGroupMark g)).1.groupDelay = 0
    simp only [groupDelayTimerCb, if_pos]
    rw [rDelay]
  · simp only [groupDelayTimerCb, if_pos]
    rw [rDelaying]
  · intro i e he
    simp only [groupDelayTimerCb, if_pos]
    exact rSelf i e he
  · intro i
    simp only [groupDelayTimerCb, if_pos]
    cases he : g.elems[i]? with
    | none => rw [rNone i he]
    | some e => rw [rSelf i e he]; rfl

/-- Witness for C4: a concrete visible one-member group with a 1000ms
group delay is deferred with a 1000ms timer. -/
theorem groupDelay_gating_witness :
    (0 : ℚ) < 1000 ∧
    updateOne 500 { staggerGroup 1 0 false 0 0 0 with groupDelay := 1000 } =
      .deferred (delayGroupMark { staggerGroup 1 0 false 0 0 0 with groupDelay := 1000 })
        1000 :=
  ⟨by norm_num,
   (groupDelay_gating 500 (fun _ => (0, 0, 0))
      { staggerGroup 1 0 false 0 0 0 with groupDelay := 1000 }
      (by norm_num [staggerGroup]) rfl).1⟩

/-! ## C2: staggered delay assignment -/

theorem updateNext_numElemsAnimated (g : ElemGroup) :
    g.updateNextStaggeredDelay.numElemsAnimated = g.numElemsAnimated := by
  unfold ElemGroup.updateNextStaggeredDelay
  split_ifs <;> rfl

theorem updateNext_set_elems (g : ElemGroup) (l : List Elem) :
    ({ g with elems := l } : ElemGroup).updateNextStaggeredDelay =
      { g.updateNextStaggeredDelay with elems := l } := by
  unfold ElemGroup.updateNextStaggeredDelay
  split_ifs <;> rfl

/-- What `animate` does to a member with no unique delay that is not
yet animated, when the computed delay is not `null`: write the delay
style, add the class, set the flag (bumping the counters), and advance
the group's staggered delay. -/
theorem animate_spec (g : ElemGroup) (i : Nat) (e : Elem)
    (he : g.elems[i]? = some e) (hu : e.uniqueDelay = none)
    (ha : e.isAnimated = false) (hd : elemDelay g e ≠ none)
    (hlen : i < g.elems.length) :
    animate g i =
      { g.updateNextStaggeredDelay with
        elems := g.elems.set i
          { e with delayStyle := elemDelay g e, hasAnimatedClass := true,
                   isAnimated := true }
        numElemsAnimated := g.numElemsAnimated + 1
        isFinishedAnimating :=
          decide (g.numElemsAnimated + 1 = (g.elems.length : Int)) } := by
  have e1def : ({ e with delayStyle := elemDelay g e } : Elem).isAnimated = false := ha
  unfold animate
  rw [he]
  dsimp only
  rw [if_pos hd]
  have hmap1 : mapElemAt g i (fun x => { x with delayStyle := elemDelay g e }) =
      { g with elems := g.elems.set i { e with delayStyle := elemDelay g e } } := by
    unfold mapElemAt
    rw [he]
  rw [hmap1]
  have htr : truthyOpt e.uniqueDelay = false := by
    rw [hu]
    rfl
  rw [if_pos (by rw [htr]; rfl)]
  rw [updateNext_set_elems]
  have hget1 : ({ g.updateNextStaggeredDelay with
      elems := g.elems.set i { e with delayStyle := elemDelay g e } } :
        ElemGroup).elems[i]? = some { e with delayStyle := elemDelay g e } :=
    listGetSet_self _ _ _ hlen
  have hmap2 : mapElemAt { g.updateNextStaggeredDelay with
      elems := g.elems.set i { e with delayStyle := elemDelay g e } } i
      (fun x => { x with hasAnimatedClass := true }) =
      { g.updateNextStaggeredDelay with
        elems := (g.elems.set i { e with delayStyle := elemDelay g e }).set i
          { e with delayStyle := elemDelay g e, hasAnimatedClass := true } } := by
    unfold mapElemAt
    rw [hget1]
  rw [hmap2, List.set_set]
  have hget2 : ({ g.updateNextStaggeredDelay with
      elems := g.elems.set i
        { e with delayStyle := elemDelay g e, hasAnimatedClass := true } } :
        ElemGroup).elems[i]? =
      some { e with delayStyle := elemDelay g e, hasAnimatedClass := true } :=
    listGetSet_self _ _ _ hlen
  rw [setIsAnimated_ne _ i true _ hget2 (by rw [show ({ e with delayStyle := elemDelay g e, hasAnimatedClass := true } : Elem).isAnimated = false from ha]; simp)]
  rw [List.set_set, List.length_set]
  simp [updateNext_numElemsAnimated]

theorem updateNext_char_none (g : ElemGroup) (hn : g.nextStaggeredDelay = none)
    (hm : g.delayMultiplier ≠ 0) :
    g.updateNextStaggeredDelay =
      { g with nextStaggeredDelay := some (if g.staggersFromZero then g.delayMultiplier else 2 * g.delayMultiplier) } := by
  unfold ElemGroup.updateNextStaggeredDelay
  rw [hn]
  rw [if_neg (by simp [truthyOpt])]
  rw [if_pos ⟨rfl, hm⟩]

theorem updateNext_char_some (g : ElemGroup) (c : ℚ)
    (hn : g.nextStaggeredDelay = some c) (hc : c ≠ 0) :
    g.updateNextStaggeredDelay =
      { g with nextStaggeredDelay := some (c + g.delayMultiplier) } := by
  unfold ElemGroup.updateNextStaggeredDelay
  rw [hn]
  rw [if_pos (by simp [truthyOpt, hc])]
  simp

theorem midStagger_next (k : Nat) (M : ℚ) (z : Bool) (t b th : ℚ) (j : Nat)
    (num : Int) (fin : Bool) :
    (midStaggerState k M z t b th j num fin).nextStaggeredDelay =
      staggerNsd M z j := rfl

theorem midStagger_mult (k : Nat) (M : ℚ) (z : Bool) (t b th : ℚ) (j : Nat)
    (num : Int) (fin : Bool) :
    (midStaggerState k M z t b th j num fin).delayMultiplier = M := rfl

theorem midStagger_sfz (k : Nat) (M : ℚ) (z : Bool) (t b th : ℚ) (j : Nat)
    (num : Int) (fin : Bool) :
    (midStaggerState k M z t b th j num fin).staggersFromZero = z := rfl

theorem midStagger_num (k : Nat) (M : ℚ) (z : Bool) (t b th : ℚ) (j : Nat)
    (num : Int) (fin : Bool) :
    (midStaggerState k M z t b th j num fin).numElemsAnimated = num := rfl

theorem stagger_cj_pos (M : ℚ) (z : Bool) (j : Nat) (hM : 0 < M)
    (hj : z = true → j ≠ 0) :
    0 < (if z then (j : ℚ) else (j : ℚ) + 1) * M := by
  cases z with
  | false =>
    have h2 : (if (false : Bool) then (j : ℚ) else (j : ℚ) + 1) = (j : ℚ) + 1 := by simp
    rw [h2]
    have hj1 : (0 : ℚ) < (j : ℚ) + 1 := by positivity
    exact mul_pos hj1 hM
  | true =>
    have hj0 := hj rfl
    have hj1 : (1 : ℚ) ≤ (j : ℚ) := by
      exact_mod_cast Nat.one_le_iff_ne_zero.2 hj0
    have h2 : (if (true : Bool) then (j : ℚ) else (j : ℚ) + 1) = (j : ℚ) := by simp
    rw [h2]
    nlinarith

theorem stagger_step (k : Nat) (M : ℚ) (z : Bool) (t b th wh : ℚ) (j : Nat)
    (num : Int) (fin : Bool) (hM : 0 < M) (hjk : j < k) :
    updateAnimations wh (midStaggerState k M z t b th j num fin) j =
      midStaggerState k M z t b th (j + 1) (num + 1)
        (decide (num + 1 = (k : Int))) := by
  have hLenD : (staggerDones M z t b th j).length = j := by
    rw [staggerDones, List.length_map, List.length_range]
  have hsplit : k - j = (k - j - 1) + 1 := by omega
  have hel : (midStaggerState k M z t b th j num fin).elems =
      staggerDones M z t b th j ++ List.replicate (k - j) (staggerElem t b th) := rfl
  have he : (midStaggerState k M z t b th j num fin).elems[j]? =
      some (staggerElem t b th) := by
    rw [hel, hsplit, List.replicate_succ]
    have h2 := listGetAppend (staggerDones M z t b th j) (staggerElem t b th)
      (List.replicate (k - j - 1) (staggerElem t b th))
    rw [hLenD] at h2
    exact h2
  have hLenE : (midStaggerState k M z t b th j num fin).elems.length = k := by
    rw [hel, List.length_append, hLenD, List.length_replicate]
    omega
  have hjlen : j < (midStaggerState k M z t b th j num fin).elems.length := by
    rw [hLenE]
    exact hjk
  have hReady : isReadyToAnimate (midStaggerState k M z t b th j num fin)
      (staggerElem t b th) = true := by
    simp [isReadyToAnimate, staggerElem, midStaggerState, staggerGroup]
  have hshow : elemDelay (midStaggerState k M z t b th j num fin)
      (staggerElem t b th) =
      (if truthyOpt (staggerNsd M z j) then staggerNsd M z j
       else if staggerNsd M z j = none ∧ M ≠ 0 then some (if z then 0 else M)
       else none) := rfl
  have hDelay : elemDelay (midStaggerState k M z t b th j num fin)
      (staggerElem t b th) = some ((if z then (j : ℚ) else (j : ℚ) + 1) * M) := by
    rw [hshow]
    by_cases hj0 : j = 0
    · subst hj0
      have hsn : staggerNsd M z 0 = none := rfl
      rw [hsn, if_neg (by simp [truthyOpt]), if_pos ⟨rfl, hM.ne'⟩]
      cases z <;> norm_num
    · have hpos := stagger_cj_pos M z j hM (fun _ => hj0)
      have hsn : staggerNsd M z j = some ((if z then (j : ℚ) else (j : ℚ) + 1) * M) := by
        simp [staggerNsd, hj0]
      rw [hsn, if_pos (by simp only [truthyOpt, ne_eq, decide_eq_true_eq]; exact hpos.ne')]
  have hNext : (midStaggerState k M z t b th j num fin).updateNextStaggeredDelay =
      { midStaggerState k M z t b th j num fin with
        nextStaggeredDelay := staggerNsd M z (j + 1) } := by
    by_cases hj0 : j = 0
    · subst hj0
      rw [updateNext_char_none _ (by rw [midStagger_next]; rfl)
            (by rw [midStagger_mult]; exact hM.ne')]
      rw [midStagger_sfz, midStagger_mult]
      have hval : (some (if z then M else 2 * M) : Option ℚ) = staggerNsd M z 1 := by
        cases z <;> norm_num [staggerNsd]
      rw [hval]
      rfl
    · have hpos := stagger_cj_pos M z j hM (fun _ => hj0)
      rw [updateNext_char_some _ ((if z then (j : ℚ) else (j : ℚ) + 1) * M)
            (by rw [midStagger_next]; simp [staggerNsd, hj0]) hpos.ne']
      rw [midStagger_mult]
      have hval : (some ((if z then (j : ℚ) else (j : ℚ) + 1) * M + M) : Option ℚ) =
          staggerNsd M z (j + 1) := by
        rw [staggerNsd, if_neg (Nat.succ_ne_zero j)]
        cases z
        · norm_num
          ring
        · norm_num
          ring
      rw [hval]
      rfl
  have hDone : ({ staggerElem t b th with
      delayStyle := some ((if z then (j : ℚ) else (j : ℚ) + 1) * M),
      hasAnimatedClass := true, isAnimated := true } : Elem) =
      staggerDone t b th ((if z then (j : ℚ) else (j : ℚ) + 1) * M) := rfl
  have hElems : ((staggerDones M z t b th j ++
      List.replicate (k - j) (staggerElem t b th)).set j
        (staggerDone t b th ((if z then (j : ℚ) else (j : ℚ) + 1) * M))) =
      staggerDones M z t b th (j + 1) ++
        List.replicate (k - (j + 1)) (staggerElem t b th) := by
    rw [hsplit, List.replicate_succ]
    have h3 := listSetAppend (staggerDones M z t b th j) (staggerElem t b th)
      (staggerDone t b th ((if z then (j : ℚ) else (j : ℚ) + 1) * M))
      (List.replicate (k - j - 1) (staggerElem t b th))
    rw [hLenD] at h3
    rw [h3]
    have hd1 : staggerDones M z t b th (j + 1) =
        staggerDones M z t b th j ++
          [staggerDone t b th ((if z then (j : ℚ) else (j : ℚ) + 1) * M)] := by
      simp [staggerDones, List.range_succ]
    rw [hd1, List.append_assoc]
    have hkj : k - (j + 1) = k - j - 1 := by omega
    rw [hkj]
    rfl
  unfold updateAnimations
  rw [he]
  dsimp only
  rw [if_pos hReady]
  rw [animate_spec _ j (staggerElem t b th) he rfl rfl (by rw [hDelay]; simp) hjlen]
  rw [hDelay, hNext, midStagger_num, hLenE]
  rw [hel, hDone, hElems]
  rfl

theorem stagger_fold (k : Nat) (M : ℚ) (z : Bool) (t b th wh : ℚ) (hM : 0 < M) :
    ∀ (r j : Nat) (num : Int) (fin : Bool), j + r = k →
      ∃ (num2 : Int) (fin2 : Bool),
        (List.range' j r).foldl (fun h i => updateAnimations wh h i)
            (midStaggerState k M z t b th j num fin) =
          midStaggerState k M z t b th k num2 fin2 := by
  intro r
  induction r with
  | zero =>
    intro j num fin hjk
    exact ⟨num, fin, by rw [show j = k from by omega]; rfl⟩
  | succ r ih =>
    intro j num fin hjk
    rw [List.range'_succ]
    simp only [List.foldl_cons]
    rw [stagger_step k M z t b th wh j num fin hM (by omega)]
    exact ih (j + 1) (num + 1) _ (by omega)

/-- C2: in a group with stagger multiplier `M > 0`, from-zero flag `z`
and `k` members with no unique delays, all ready to animate in one
update cycle, the member pass assigns the member at 0-based position
`i` the delay `(i + 1) * M` when `z` is false (so the k-th member,
1-indexed, gets `k * M`) and `i * M` when `z` is true. -/
theorem stagger_delay_assignment (k : Nat) (M : ℚ) (z : Bool) (t b th wh : ℚ)
    (i : Nat) (hM : 0 < M) (hik : i < k) :
    (memberPass wh (staggerGroup k M z t b th)).elems[i]? =
      some (staggerDone t b th ((if z then (i : ℚ) else (i : ℚ) + 1) * M)) := by
  have hg : staggerGroup k M z t b th = midStaggerState k M z t b th 0 0 false := rfl
  have hlen : (staggerGroup k M z t b th).elems.length = k := by
    simp [staggerGroup]
  obtain ⟨num2, fin2, hfold⟩ := stagger_fold k M z t b th wh hM k 0 0 false (by omega)
  have hpass : memberPass wh (staggerGroup k M z t b th) =
      midStaggerState k M z t b th k num2 fin2 := by
    rw [memberPass, hlen, List.range_eq_range', hg]
    exact hfold
  rw [hpass]
  show (staggerDones M z t b th k ++ List.replicate (k - k) (staggerElem t b th))[i]? = _
  rw [Nat.sub_self, List.replicate_zero, List.append_nil]
  rw [staggerDones, List.getElem?_map]
  simp [List.getElem?_range, hik]

/-- Witness for C2: the stagger scenario of the specification — three
members, multiplier 100ms, from-zero false — assigns the third member
the delay 300ms. -/
theorem stagger_delay_assignment_witness :
    (0 : ℚ) < 100 ∧
    (memberPass 500 (staggerGroup 3 100 false 0 0 0)).elems[2]? =
      some (staggerDone 0 0 0 300) :=
  ⟨by norm_num, by
    have h := stagger_delay_assignment 3 100 false 0 0 0 500 2 (by norm_num) (by omega)
    norm_num at h
    exact h⟩
